import Mathlib

/-!
Verification of the bytecode decoder / control-flow-graph builder of the
`rustrospective` JVM class-file analyzer.

The CFG builder (`build_cfg` in `src/cfg.rs`) and the IR data model
(`src/ir.rs`) are embedded shallowly below.  Bytecode is a `List Nat`
(each element a byte value), offsets are natural numbers, and the
fallible Rust functions (returning `anyhow::Result`) become functions
into `Except RtError`.  An out-of-bounds slice index — which panics in
Rust — is modelled by the distinguished error `RtError.panic`, so that
panic-freedom is expressible as "the result is never `.error .panic`".

Rust `i16`/`i32` values are modelled as `Int` together with explicit
two's-complement reinterpretation (`toI16`, `toI32`) and wrapping
(`wrap32`); Rust `as u16` truncation is `toU16`.  Offsets are modelled
as unbounded naturals: the `u32` wrap of `offset + length` is immaterial
to the stated properties because decoded offsets are bounded by the
64 KiB JVM method-size ceiling.
-/

namespace Rtro

/-! ### IR data model, from `src/ir.rs` -/

/-- Call opcode classification used by CHA (`CallKind` in `src/ir.rs`). -/
inductive CallKind where
  | Virtual
  | Interface
  | Special
  | Static
  deriving Repr, DecidableEq

/-- Call site extracted from bytecode (`CallSite` in `src/ir.rs`). -/
structure CallSite where
  owner : String
  name : String
  descriptor : String
  kind : CallKind
  offset : Nat
  deriving Repr, DecidableEq

/-- Instruction kinds needed for call graph construction
(`InstructionKind` in `src/ir.rs`). -/
inductive InstructionKind where
  | Invoke (c : CallSite)
  | ConstString (s : String)
  | Other (op : Nat)
  deriving Repr, DecidableEq

/-- Bytecode instruction captured for analysis (`Instruction` in `src/ir.rs`). -/
structure Instruction where
  offset : Nat
  opcode : Nat
  kind : InstructionKind
  deriving Repr, DecidableEq

/-- Edge classification used for CFG inspection (`EdgeKind` in `src/ir.rs`). -/
inductive EdgeKind where
  | FallThrough
  | Branch
  | Exception
  deriving Repr, DecidableEq

/-- Edge between basic blocks (`FlowEdge` in `src/ir.rs`; the Rust
fields `from` and `to` are Lean keywords, hence `from_` and `to_`). -/
structure FlowEdge where
  from_ : Nat
  to_ : Nat
  kind : EdgeKind
  deriving Repr, DecidableEq

/-- Basic block covering a range of bytecode offsets (`BasicBlock` in
`src/ir.rs`). -/
structure BasicBlock where
  start_offset : Nat
  end_offset : Nat
  instructions : List Instruction
  deriving Repr, DecidableEq

/-- Basic block graph for method bytecode (`ControlFlowGraph` in `src/ir.rs`). -/
structure ControlFlowGraph where
  blocks : List BasicBlock
  edges : List FlowEdge
  deriving Repr, DecidableEq

/-- Errors of the embedded decoder.  `.decode` models the `anyhow`
errors the Rust code constructs and propagates with `?`; `.panic` models
a Rust panic from an unchecked out-of-bounds slice index. -/
inductive RtError where
  | panic
  | decode (msg : String)
  deriving Repr, DecidableEq

instance (ε α : Type) [DecidableEq ε] [DecidableEq α] :
    DecidableEq (Except ε α) := fun x y =>
  match x, y with
  | .ok a, .ok b => decidable_of_iff (a = b) (by simp)
  | .error a, .error b => decidable_of_iff (a = b) (by simp)
  | .ok _, .error _ => .isFalse (by simp)
  | .error _, .ok _ => .isFalse (by simp)

/-! ### Two's-complement arithmetic helpers -/

/-- Reinterpret a `u16` bit pattern as Rust `i16`
(`i16::from_be_bytes(value.to_be_bytes())` in `src/cfg.rs`). -/
def toI16 (v : Nat) : Int :=
  if v < 32768 then (v : Int) else (v : Int) - 65536

/-- Reinterpret a `u32` bit pattern as Rust `i32`
(`i32::from_be_bytes(value.to_be_bytes())` in `src/cfg.rs`). -/
def toI32 (v : Nat) : Int :=
  if v < 2147483648 then (v : Int) else (v : Int) - 4294967296

/-- Rust `as u16` truncation of a signed value: the low 16 bits. -/
def toU16 (x : Int) : Nat := (x % 65536).toNat

/-- Wrap an integer into the `i32` range `[-2^31, 2^31)`: models Rust
`as i32` truncation and release-mode wrapping `i32` addition. -/
def wrap32 (x : Int) : Int := (x + 2147483648) % 4294967296 - 2147483648

/-- Rust `i32::checked_sub`. -/
def i32CheckedSub (a b : Int) : Option Int :=
  let v := a - b
  if -2147483648 ≤ v ∧ v < 2147483648 then some v else none

/-- Rust `i32::checked_add`. -/
def i32CheckedAdd (a b : Int) : Option Int :=
  let v := a + b
  if -2147483648 ≤ v ∧ v < 2147483648 then some v else none

/-- Resolution of a relative branch operand at `offset`:
`(offset as i32 + operand) as u16`, as in `branch_targets`,
`tableswitch_targets` and `lookupswitch_targets` of `src/cfg.rs`. -/
def resolveTarget (offset : Nat) (operand : Int) : Nat :=
  toU16 (wrap32 (wrap32 (offset : Int) + operand))

/-! ### Opcode constants

Modelled from the spec: the `opcodes` module referenced by `src/cfg.rs`
is not under `src/`; the values are the standard JVM opcode numbers,
matching the spec's concrete scenarios (`0xA7` = `goto`, `0xB1` =
`return`, §8) and the gap left by `src/cfg.rs`'s literal match arms
(`0x99..=0xa6 | GOTO | JSR | 0xc6 | 0xc7` and `0xaa`/`0xab`). -/

def GOTO : Nat := 0xa7
def JSR : Nat := 0xa8
def GOTO_W : Nat := 0xc8
def JSR_W : Nat := 0xc9
def IRETURN : Nat := 0xac
def LRETURN : Nat := 0xad
def FRETURN : Nat := 0xae
def DRETURN : Nat := 0xaf
def ARETURN : Nat := 0xb0
def RETURN : Nat := 0xb1
def ATHROW : Nat := 0xbf

/-! ### Bounds-checked reads and the opcode table

Modelled from the spec: `scan::read_u16`, `scan::read_u32`,
`scan::padding` and `scan::opcode_length`, called by `src/cfg.rs`, are
not under `src/` (the `scan.rs` present holds only filesystem
scanning).  Per spec §4.1/§7 any attempt to read past the end of the
code buffer signals a decode error, never a silent truncation and never
a panic. -/

/-- Modelled from the spec: big-endian 2-byte read, decode error past
the buffer end (spec §4.1, §7(a)). -/
def read_u16 (code : List Nat) (offset : Nat) : Except RtError Nat :=
  match code.get? offset, code.get? (offset + 1) with
  | some b0, some b1 => .ok (b0 * 256 + b1)
  | _, _ => .error (.decode "read_u16 out of bounds")

/-- Modelled from the spec: big-endian 4-byte read, decode error past
the buffer end (spec §4.1, §7(a)). -/
def read_u32 (code : List Nat) (offset : Nat) : Except RtError Nat :=
  match code.get? offset, code.get? (offset + 1),
        code.get? (offset + 2), code.get? (offset + 3) with
  | some b0, some b1, some b2, some b3 =>
      .ok (((b0 * 256 + b1) * 256 + b2) * 256 + b3)
  | _, _, _, _ => .error (.decode "read_u32 out of bounds")

/-- Signed 2-byte read (`read_i16` in `src/cfg.rs`). -/
def read_i16 (code : List Nat) (offset : Nat) : Except RtError Int :=
  match read_u16 code offset with
  | .ok v => .ok (toI16 v)
  | .error e => .error e

/-- Signed 4-byte read (`read_i32` in `src/cfg.rs`). -/
def read_i32 (code : List Nat) (offset : Nat) : Except RtError Int :=
  match read_u32 code offset with
  | .ok v => .ok (toI32 v)
  | .error e => .error e

/-- Modelled from the spec: switch-table alignment padding
`(4 - ((offset + 1) mod 4)) mod 4` (spec §4.2). -/
def padding (offset : Nat) : Nat := (4 - ((offset + 1) % 4)) % 4

/-- Modelled from the spec: `scan::opcode_length` (spec §4.1) — total
encoded length of the instruction at `offset`.  16-bit relative branch
forms have length 3, the extended forms length 5, and the switch forms
a padding-dependent length with a per-entry cost (4 bytes/entry for
`tableswitch`, 8 for `lookupswitch`); reading past the buffer end while
computing a length is a decode error.  The spec does not give the
per-opcode constants of the remaining fixed-length opcodes; they are
modelled as length 1, which no stated property depends on. -/
def opcode_length (code : List Nat) (offset : Nat) : Except RtError Nat :=
  match code.get? offset with
  | none => .error (.decode "opcode out of bounds")
  | some op =>
    if (0x99 ≤ op ∧ op ≤ 0xa6) ∨ op = GOTO ∨ op = JSR ∨ op = 0xc6 ∨ op = 0xc7 then
      .ok 3
    else if op = GOTO_W ∨ op = JSR_W then
      .ok 5
    else if op = 0xaa then
      match read_i32 code (offset + 1 + padding offset + 4),
            read_i32 code (offset + 1 + padding offset + 8) with
      | .ok low, .ok high =>
          .ok (1 + padding offset + 12 + 4 * (high - low + 1).toNat)
      | .error e, _ => .error e
      | _, .error e => .error e
    else if op = 0xab then
      match read_i32 code (offset + 1 + padding offset + 4) with
      | .ok npairs => .ok (1 + padding offset + 8 + 8 * npairs.toNat)
      | .error e => .error e
    else
      .ok 1

/-! ### Branch-target resolution, from `src/cfg.rs` -/

/-- Number of loop iterations of Rust `for _ in 0..count` for an `i32`
count: `count.toNat` (zero when `count ≤ 0`). -/
def loopIters (count : Int) : Nat := count.toNat

/-- The per-case read loop shared by `tableswitch_targets` (reads at
`idx`, `idx += 4`) and `lookupswitch_targets` (reads at `idx + 4`,
`idx += 8`) in `src/cfg.rs`. -/
def switchLoop (code : List Nat) (offset : Nat) (readDelta step idx : Nat) :
    Nat → Except RtError (List Nat)
  | 0 => .ok []
  | n + 1 =>
    match read_i32 code (idx + readDelta) with
    | .error e => .error e
    | .ok t =>
      match switchLoop code offset readDelta step (idx + step) n with
      | .error e => .error e
      | .ok rest => .ok (resolveTarget offset t :: rest)

/-- `tableswitch_targets` from `src/cfg.rs` (the Rust local
`base = offset + 1 + padding` is inlined). -/
def tableswitch_targets (code : List Nat) (offset : Nat) :
    Except RtError (List Nat) :=
  match read_i32 code (offset + 1 + padding offset) with
  | .error e => .error e
  | .ok dflt =>
    match read_i32 code (offset + 1 + padding offset + 4) with
    | .error e => .error e
    | .ok low =>
      match read_i32 code (offset + 1 + padding offset + 8) with
      | .error e => .error e
      | .ok high =>
        match (i32CheckedSub high low).bind (fun v => i32CheckedAdd v 1) with
        | none => .error (.decode "invalid tableswitch range")
        | some count =>
          match switchLoop code offset 0 4 (offset + 1 + padding offset + 12)
              (loopIters count) with
          | .error e => .error e
          | .ok cases => .ok (resolveTarget offset dflt :: cases)

/-- `lookupswitch_targets` from `src/cfg.rs` (the Rust local
`base = offset + 1 + padding` is inlined). -/
def lookupswitch_targets (code : List Nat) (offset : Nat) :
    Except RtError (List Nat) :=
  match read_i32 code (offset + 1 + padding offset) with
  | .error e => .error e
  | .ok dflt =>
    match read_i32 code (offset + 1 + padding offset + 4) with
    | .error e => .error e
    | .ok npairs =>
      match switchLoop code offset 4 8 (offset + 1 + padding offset + 8)
          (loopIters npairs) with
      | .error e => .error e
      | .ok pairs => .ok (resolveTarget offset dflt :: pairs)

/-- `branch_targets` from `src/cfg.rs`.  The fetch `code[offset]` is an
unchecked slice index in Rust, so a missing byte is modelled as
`.error .panic`. -/
def branch_targets (code : List Nat) (offset : Nat) :
    Except RtError (Option (List Nat)) :=
  match code.get? offset with
  | none => .error .panic
  | some opcode =>
    if (0x99 ≤ opcode ∧ opcode ≤ 0xa6) ∨ opcode = GOTO ∨ opcode = JSR ∨
        opcode = 0xc6 ∨ opcode = 0xc7 then
      match read_i16 code (offset + 1) with
      | .error e => .error e
      | .ok branch => .ok (some [resolveTarget offset branch])
    else if opcode = GOTO_W ∨ opcode = JSR_W then
      match read_i32 code (offset + 1) with
      | .error e => .error e
      | .ok branch => .ok (some [resolveTarget offset branch])
    else if opcode = 0xaa then
      match tableswitch_targets code offset with
      | .error e => .error e
      | .ok targets => .ok (some targets)
    else if opcode = 0xab then
      match lookupswitch_targets code offset with
      | .error e => .error e
      | .ok targets => .ok (some targets)
    else
      .ok none

/-- `is_exit_opcode` from `src/cfg.rs`. -/
def is_exit_opcode (opcode : Nat) : Bool :=
  opcode == IRETURN || opcode == LRETURN || opcode == FRETURN ||
  opcode == DRETURN || opcode == ARETURN || opcode == RETURN ||
  opcode == ATHROW

/-- `is_unconditional_branch` from `src/cfg.rs`. -/
def is_unconditional_branch (opcode : Nat) : Bool :=
  opcode == GOTO || opcode == JSR || opcode == GOTO_W || opcode == JSR_W

/-! ### The CFG builder, from `build_cfg` in `src/cfg.rs` -/

/-- The leader offsets inserted for one instruction by the first pass of
`build_cfg` (`src/cfg.rs` lines 19–31): for a branch/switch instruction
its targets plus the offset after it, and for an exit opcode the offset
after it. -/
def leadersOfInst (code : List Nat) (inst : Instruction) :
    Except RtError (List Nat) :=
  match branch_targets code inst.offset with
  | .error e => .error e
  | .ok none =>
    if is_exit_opcode inst.opcode then
      match opcode_length code inst.offset with
      | .error e => .error e
      | .ok len => .ok [inst.offset + len]
    else .ok []
  | .ok (some targets) =>
    match opcode_length code inst.offset with
    | .error e => .error e
    | .ok len =>
      if is_exit_opcode inst.opcode then
        .ok (targets ++ [inst.offset + len] ++ [inst.offset + len])
      else .ok (targets ++ [inst.offset + len])

/-- The leader offsets inserted by the first pass of `build_cfg` over
the whole instruction list. -/
def instructionLeaders (code : List Nat) :
    List Instruction → Except RtError (List Nat)
  | [] => .ok []
  | inst :: rest =>
    match leadersOfInst code inst with
    | .error e => .error e
    | .ok here =>
      match instructionLeaders code rest with
      | .error e => .error e
      | .ok there => .ok (here ++ there)

/-- Insertion into a strictly ascending list, keeping it strictly
ascending: the effect of one `BTreeSet::insert` on the set's ascending
iteration order. -/
def insertSorted (x : Nat) : List Nat → List Nat
  | [] => [x]
  | y :: ys =>
    if x < y then x :: y :: ys
    else if x = y then y :: ys
    else y :: insertSorted x ys

/-- Repeated `BTreeSet::insert`, one element of `xs` at a time. -/
def insertAll (xs : List Nat) (s : List Nat) : List Nat :=
  xs.foldl (fun acc x => insertSorted x acc) s

/-- The sorted, duplicate-free leader list of `build_cfg` (`src/cfg.rs`
lines 14–36): the `BTreeSet` holding `0`, the handler pcs and the
per-instruction leaders, iterated in ascending order and restricted to
offsets below the code length (`sort`/`dedup` after `retain` are no-ops
on a `BTreeSet` iteration, and `retain` is the filter). -/
def leaderList (code : List Nat) (instructions : List Instruction)
    (handlers : List Nat) : Except RtError (List Nat) :=
  match instructionLeaders code instructions with
  | .error e => .error e
  | .ok extra =>
    .ok ((insertAll extra (insertAll handlers (insertSorted 0 []))).filter
      (fun o => o < code.length))

/-- Block assembly of `build_cfg` (`src/cfg.rs` lines 38–64): one block
per adjacent leader pair, plus a final block from the last leader to
the code length. -/
def mkBlocks (code_len : Nat) (instructions : List Instruction) :
    List Nat → List BasicBlock
  | [] => []
  | [l] =>
    [{ start_offset := l, end_offset := code_len,
       instructions := instructions.filter (fun i => l ≤ i.offset) }]
  | l1 :: l2 :: rest =>
    { start_offset := l1, end_offset := l2,
      instructions :=
        instructions.filter (fun i => l1 ≤ i.offset && i.offset < l2) } ::
    mkBlocks code_len instructions (l2 :: rest)

/-- `next_block_start` from `src/cfg.rs`. -/
def next_block_start (blocks : List BasicBlock) (offset : Nat) : Option Nat :=
  (blocks.find? (fun b => b.start_offset == offset)).map (·.start_offset)

/-- The edges emitted for one block by `build_cfg` (`src/cfg.rs` lines
67–97): nothing for a block with no instructions; otherwise one
`Branch` edge per explicit target of the last instruction, followed by
a `FallThrough` edge to the next block unless the last instruction is
an unconditional branch (with targets) or an exit opcode (without). -/
def edgesOfBlock (code : List Nat) (blocks : List BasicBlock)
    (block : BasicBlock) : Except RtError (List FlowEdge) :=
  match block.instructions.getLast? with
  | none => .ok []
  | some last_inst =>
    match branch_targets code last_inst.offset with
    | .error e => .error e
    | .ok (some targets) =>
      let branchEdges := targets.map (fun t =>
        { from_ := block.start_offset, to_ := t, kind := EdgeKind.Branch })
      if ¬ is_unconditional_branch last_inst.opcode then
        match next_block_start blocks block.end_offset with
        | some next =>
          .ok (branchEdges ++
            [{ from_ := block.start_offset, to_ := next,
               kind := EdgeKind.FallThrough }])
        | none => .ok branchEdges
      else .ok branchEdges
    | .ok none =>
      if ¬ is_exit_opcode last_inst.opcode then
        match next_block_start blocks block.end_offset with
        | some next =>
          .ok [{ from_ := block.start_offset, to_ := next,
                 kind := EdgeKind.FallThrough }]
        | none => .ok []
      else .ok []

/-- The edge list of `build_cfg`: the per-block edges concatenated in
block order. -/
def mkEdges (code : List Nat) (blocks : List BasicBlock) :
    List BasicBlock → Except RtError (List FlowEdge)
  | [] => .ok []
  | b :: rest =>
    match edgesOfBlock code blocks b with
    | .error e => .error e
    | .ok here =>
      match mkEdges code blocks rest with
      | .error e => .error e
      | .ok there => .ok (here ++ there)

/-- `build_cfg` from `src/cfg.rs`: leader collection, block assembly,
edge construction. -/
def build_cfg (code : List Nat) (instructions : List Instruction)
    (handlers : List Nat) : Except RtError ControlFlowGraph :=
  match leaderList code instructions handlers with
  | .error e => .error e
  | .ok leader_list =>
    match mkEdges code (mkBlocks code.length instructions leader_list)
        (mkBlocks code.length instructions leader_list) with
    | .error e => .error e
    | .ok edges =>
      .ok { blocks := mkBlocks code.length instructions leader_list,
            edges := edges }

/-! ### Properties of the ordered leader set -/

theorem mem_insertSorted {a x : Nat} {l : List Nat} :
    a ∈ insertSorted x l ↔ a = x ∨ a ∈ l := by
  induction l with
  | nil => simp [insertSorted]
  | cons y ys ih =>
    simp only [insertSorted]
    split_ifs with h1 h2
    · simp
    · subst h2
      simp only [List.mem_cons]
      constructor
      · intro h; exact Or.inr h
      · rintro (rfl | h)
        · exact Or.inl rfl
        · exact h
    · simp only [List.mem_cons, ih]
      tauto

theorem sorted_insertSorted {x : Nat} {l : List Nat}
    (h : l.Sorted (· < ·)) : (insertSorted x l).Sorted (· < ·) := by
  induction l with
  | nil => simp [insertSorted]
  | cons y ys ih =>
    rw [List.sorted_cons] at h
    obtain ⟨hy, hys⟩ := h
    simp only [insertSorted]
    split_ifs with h1 h2
    · rw [List.sorted_cons]
      refine ⟨?_, ?_⟩
      · intro b hb
        rcases List.mem_cons.mp hb with rfl | hb
        · exact h1
        · exact h1.trans (hy b hb)
      · rw [List.sorted_cons]; exact ⟨hy, hys⟩
    · subst h2
      rw [List.sorted_cons]; exact ⟨hy, hys⟩
    · rw [List.sorted_cons]
      refine ⟨?_, ih hys⟩
      intro b hb
      rcases mem_insertSorted.mp hb with rfl | hb
      · omega
      · exact hy b hb

theorem mem_insertAll {a : Nat} {xs s : List Nat} :
    a ∈ insertAll xs s ↔ a ∈ xs ∨ a ∈ s := by
  induction xs generalizing s with
  | nil => simp [insertAll]
  | cons x xs ih =>
    show a ∈ insertAll xs (insertSorted x s) ↔ _
    rw [ih, mem_insertSorted]
    simp only [List.mem_cons]
    tauto

theorem sorted_insertAll {xs s : List Nat} (h : s.Sorted (· < ·)) :
    (insertAll xs s).Sorted (· < ·) := by
  induction xs generalizing s with
  | nil => exact h
  | cons x xs ih => exact ih (sorted_insertSorted h)

/-- The leader set before the length filter. -/
def leaderCore (handlers extra : List Nat) : List Nat :=
  insertAll extra (insertAll handlers (insertSorted 0 []))

theorem mem_leaderCore {a : Nat} {handlers extra : List Nat} :
    a ∈ leaderCore handlers extra ↔ a = 0 ∨ a ∈ handlers ∨ a ∈ extra := by
  unfold leaderCore
  rw [mem_insertAll, mem_insertAll, mem_insertSorted]
  simp only [List.not_mem_nil, or_false]
  tauto

theorem sorted_leaderCore {handlers extra : List Nat} :
    (leaderCore handlers extra).Sorted (· < ·) := by
  unfold leaderCore
  exact sorted_insertAll (sorted_insertAll (by simp [insertSorted]))

theorem leaderList_ok_inv {code : List Nat} {insts : List Instruction}
    {handlers L : List Nat}
    (h : leaderList code insts handlers = .ok L) :
    ∃ extra, instructionLeaders code insts = .ok extra ∧
      L = (leaderCore handlers extra).filter (fun o => o < code.length) := by
  unfold leaderList at h
  cases hIL : instructionLeaders code insts with
  | error e => rw [hIL] at h; exact absurd h (by simp)
  | ok extra =>
    rw [hIL] at h
    exact ⟨extra, rfl, by injection h with h'; exact h'.symm⟩

theorem leaderList_sorted {code : List Nat} {insts : List Instruction}
    {handlers L : List Nat}
    (h : leaderList code insts handlers = .ok L) : L.Sorted (· < ·) := by
  obtain ⟨extra, _, rfl⟩ := leaderList_ok_inv h
  exact List.Pairwise.filter _ sorted_leaderCore

theorem mem_leaderList {code : List Nat} {insts : List Instruction}
    {handlers L : List Nat} {extra : List Nat}
    (h : leaderList code insts handlers = .ok L)
    (hIL : instructionLeaders code insts = .ok extra) {a : Nat} :
    a ∈ L ↔ (a = 0 ∨ a ∈ handlers ∨ a ∈ extra) ∧ a < code.length := by
  obtain ⟨extra', hIL', rfl⟩ := leaderList_ok_inv h
  rw [hIL] at hIL'
  injection hIL' with he
  subst he
  rw [List.mem_filter, mem_leaderCore]
  simp

/-! ### Properties of block assembly -/

theorem mkBlocks_map_start (len : Nat) (insts : List Instruction) :
    ∀ L : List Nat, (mkBlocks len insts L).map BasicBlock.start_offset = L
  | [] => rfl
  | [_] => rfl
  | l1 :: l2 :: rest => by
    simp only [mkBlocks, List.map_cons]
    rw [mkBlocks_map_start len insts (l2 :: rest)]

theorem mkBlocks_ne_nil (len : Nat) (insts : List Instruction) {L : List Nat}
    (h : L ≠ []) : mkBlocks len insts L ≠ [] := by
  cases L with
  | nil => exact absurd rfl h
  | cons l rest => cases rest <;> simp [mkBlocks]

theorem mkBlocks_head_start (len : Nat) (insts : List Instruction)
    {L : List Nat} {b : BasicBlock}
    (h : (mkBlocks len insts L).head? = some b) : L.head? = some b.start_offset := by
  have h2 := congrArg List.head? (mkBlocks_map_start len insts L)
  rw [List.head?_map, h] at h2
  simpa using h2.symm

theorem mkBlocks_chain (len : Nat) (insts : List Instruction) :
    ∀ L : List Nat,
      List.Chain' (fun a b => a.end_offset = b.start_offset) (mkBlocks len insts L)
  | [] => List.chain'_nil
  | [_] => List.chain'_singleton _
  | l1 :: l2 :: rest => by
    simp only [mkBlocks]
    rw [List.chain'_cons']
    refine ⟨?_, mkBlocks_chain len insts (l2 :: rest)⟩
    intro y hy
    have := mkBlocks_head_start len insts hy
    simp only [List.head?_cons, Option.some.injEq] at this
    simpa using this

theorem mkBlocks_getLast_end (len : Nat) (insts : List Instruction) :
    ∀ (L : List Nat) (b : BasicBlock),
      (mkBlocks len insts L).getLast? = some b → b.end_offset = len
  | [], b => by simp [mkBlocks]
  | [l], b => by
    intro h
    simp only [mkBlocks, List.getLast?_singleton, Option.some.injEq] at h
    rw [← h]
  | l1 :: l2 :: rest, b => by
    intro h
    obtain ⟨b2, t, heq⟩ : ∃ b2 t, mkBlocks len insts (l2 :: rest) = b2 :: t := by
      cases rest <;> exact ⟨_, _, rfl⟩
    have hstep : mkBlocks len insts (l1 :: l2 :: rest)
        = { start_offset := l1, end_offset := l2,
            instructions :=
              insts.filter (fun i => l1 ≤ i.offset && i.offset < l2) }
          :: mkBlocks len insts (l2 :: rest) := rfl
    rw [hstep, heq, List.getLast?_cons_cons] at h
    exact mkBlocks_getLast_end len insts (l2 :: rest) b (by rw [heq]; exact h)

theorem mkBlocks_instructions_sub (len : Nat) (insts : List Instruction) :
    ∀ (L : List Nat) (b : BasicBlock), b ∈ mkBlocks len insts L →
      ∀ i ∈ b.instructions, i ∈ insts
  | [], b => by simp [mkBlocks]
  | [l], b => by
    intro hb i hi
    simp only [mkBlocks, List.mem_singleton] at hb
    subst hb
    exact List.mem_of_mem_filter hi
  | l1 :: l2 :: rest, b => by
    intro hb i hi
    have hstep : mkBlocks len insts (l1 :: l2 :: rest)
        = { start_offset := l1, end_offset := l2,
            instructions :=
              insts.filter (fun i => l1 ≤ i.offset && i.offset < l2) }
          :: mkBlocks len insts (l2 :: rest) := rfl
    rw [hstep] at hb
    rcases List.mem_cons.mp hb with rfl | hb'
    · exact List.mem_of_mem_filter hi
    · exact mkBlocks_instructions_sub len insts (l2 :: rest) b hb' i hi

theorem mkBlocks_pairwise_start {len : Nat} {insts : List Instruction}
    {L : List Nat} (hL : L.Sorted (· < ·)) :
    (mkBlocks len insts L).Pairwise
      (fun a b => a.start_offset < b.start_offset) := by
  have h := mkBlocks_map_start len insts L
  rw [← h] at hL
  exact List.pairwise_map.mp hL

theorem pairwise_start_inj {blocks : List BasicBlock}
    (hp : blocks.Pairwise (fun a b => a.start_offset < b.start_offset))
    {b1 b2 : BasicBlock} (h1 : b1 ∈ blocks) (h2 : b2 ∈ blocks)
    (he : b1.start_offset = b2.start_offset) : b1 = b2 := by
  induction blocks with
  | nil => cases h1
  | cons x xs ih =>
    rw [List.pairwise_cons] at hp
    rcases List.mem_cons.mp h1 with rfl | h1' <;>
      rcases List.mem_cons.mp h2 with rfl | h2'
    · rfl
    · exact absurd (hp.1 _ h2') (by omega)
    · exact absurd (hp.1 _ h1') (by omega)
    · exact ih hp.2 h1' h2'

theorem exists_block_start {len : Nat} {insts : List Instruction}
    {L : List Nat} {t : Nat} (ht : t ∈ L) :
    ∃ b ∈ mkBlocks len insts L, b.start_offset = t := by
  have h := mkBlocks_map_start len insts L
  rw [← h] at ht
  obtain ⟨b, hb, hbs⟩ := List.mem_map.mp ht
  exact ⟨b, hb, hbs⟩

theorem build_cfg_ok_inv {code : List Nat} {insts : List Instruction}
    {handlers : List Nat} {g : ControlFlowGraph}
    (h : build_cfg code insts handlers = .ok g) :
    ∃ L, leaderList code insts handlers = .ok L ∧
      g.blocks = mkBlocks code.length insts L ∧
      mkEdges code g.blocks g.blocks = .ok g.edges := by
  unfold build_cfg at h
  split at h
  · exact absurd h (by simp)
  · rename_i L hL
    split at h
    · exact absurd h (by simp)
    · rename_i edges hE
      injection h with h
      subst h
      exact ⟨L, hL, rfl, hE⟩

/-! ### Properties of edge construction -/

theorem next_block_start_eq {blocks : List BasicBlock} {off n : Nat}
    (h : next_block_start blocks off = some n) :
    n = off ∧ ∃ b' ∈ blocks, b'.start_offset = off := by
  unfold next_block_start at h
  cases hf : blocks.find? (fun b => b.start_offset == off) with
  | none => rw [hf] at h; exact absurd h (by simp)
  | some b' =>
    rw [hf] at h
    have hp := List.find?_some hf
    have hmem := List.mem_of_find?_eq_some hf
    have hs : b'.start_offset = off := by simpa using hp
    simp only [Option.map_some', Option.some.injEq] at h
    exact ⟨h ▸ hs, b', hmem, hs⟩

theorem next_block_start_of_mem {blocks : List BasicBlock} {b' : BasicBlock}
    {off : Nat} (hb : b' ∈ blocks) (hs : b'.start_offset = off) :
    next_block_start blocks off = some off := by
  have hsome : (blocks.find? (fun b => b.start_offset == off)).isSome := by
    rw [List.find?_isSome]
    exact ⟨b', hb, by simpa using hs⟩
  obtain ⟨b'', hb''⟩ := Option.isSome_iff_exists.mp hsome
  have : next_block_start blocks off = some b''.start_offset := by
    unfold next_block_start
    rw [hb'']
    rfl
  obtain ⟨hn, -⟩ := next_block_start_eq this
  rw [this, hn]

theorem edgesOfBlock_empty {code : List Nat} {blocks : List BasicBlock}
    {b : BasicBlock} (h : b.instructions = []) :
    edgesOfBlock code blocks b = .ok [] := by
  unfold edgesOfBlock
  rw [h]
  rfl

/-- Comprehensive shape of every edge emitted for one block: it leaves
the block's start offset, and it is either a `Branch` edge to an
explicit target of the block's last instruction, or the `FallThrough`
edge to the block starting at the block's `end_offset`. -/
theorem edgesOfBlock_spec {code : List Nat} {blocks : List BasicBlock}
    {b : BasicBlock} {es : List FlowEdge}
    (h : edgesOfBlock code blocks b = .ok es) :
    ∀ e ∈ es, e.from_ = b.start_offset ∧
      ((e.kind = EdgeKind.Branch ∧
         ∃ li ts, b.instructions.getLast? = some li ∧
           branch_targets code li.offset = .ok (some ts) ∧ e.to_ ∈ ts) ∨
       (e.kind = EdgeKind.FallThrough ∧ e.to_ = b.end_offset ∧
         ∃ b' ∈ blocks, b'.start_offset = b.end_offset)) := by
  intro e he
  unfold edgesOfBlock at h
  split at h
  · injection h with h
    subst h
    cases he
  · rename_i li hlast
    split at h
    · exact absurd h (by simp)
    · rename_i targets hbt
      split at h
      · split at h
        · rename_i next hnext
          injection h with h
          subst h
          rcases List.mem_append.mp he with he' | he'
          · obtain ⟨t, ht, rfl⟩ := List.mem_map.mp he'
            exact ⟨rfl, Or.inl ⟨rfl, li, targets, hlast, hbt, ht⟩⟩
          · obtain ⟨hn, hbs⟩ := next_block_start_eq hnext
            rw [List.mem_singleton] at he'
            subst he'
            exact ⟨rfl, Or.inr ⟨rfl, by simpa using hn, hbs⟩⟩
        · injection h with h
          subst h
          obtain ⟨t, ht, rfl⟩ := List.mem_map.mp he
          exact ⟨rfl, Or.inl ⟨rfl, li, targets, hlast, hbt, ht⟩⟩
      · injection h with h
        subst h
        obtain ⟨t, ht, rfl⟩ := List.mem_map.mp he
        exact ⟨rfl, Or.inl ⟨rfl, li, targets, hlast, hbt, ht⟩⟩
    · rename_i hbt
      split at h
      · split at h
        · rename_i next hnext
          injection h with h
          subst h
          obtain ⟨hn, hbs⟩ := next_block_start_eq hnext
          rw [List.mem_singleton] at he
          subst he
          exact ⟨rfl, Or.inr ⟨rfl, by simpa using hn, hbs⟩⟩
        · injection h with h
          subst h
          cases he
      · injection h with h
        subst h
        cases he

/-- With an unconditional branch (per the decoded buffer byte) as last
instruction, the emitted edges are exactly the `Branch` edges. -/
theorem edgesOfBlock_uncond {code : List Nat} {blocks : List BasicBlock}
    {b : BasicBlock} {li : Instruction} {ts : List Nat} {es : List FlowEdge}
    (hlast : b.instructions.getLast? = some li)
    (hbt : branch_targets code li.offset = .ok (some ts))
    (huncond : is_unconditional_branch li.opcode = true)
    (h : edgesOfBlock code blocks b = .ok es) :
    es = ts.map (fun t =>
      { from_ := b.start_offset, to_ := t, kind := EdgeKind.Branch }) := by
  unfold edgesOfBlock at h
  split at h
  · rename_i hnone
    rw [hlast] at hnone
    exact absurd hnone (by simp)
  · rename_i li' hlast'
    rw [hlast] at hlast'
    injection hlast' with hli
    subst hli
    split at h
    · rename_i hbt'
      rw [hbt] at hbt'
      exact absurd hbt' (by simp)
    · rename_i ts' hbt'
      rw [hbt] at hbt'
      injection hbt' with hts
      injection hts with hts
      subst hts
      split at h
      · rename_i hcond
        exact absurd huncond hcond
      · injection h with h
        exact h.symm
    · rename_i hbt'
      rw [hbt] at hbt'
      exact absurd hbt' (by simp)

/-- With a conditional branch (explicit targets, not an unconditional
opcode) as last instruction and a successor block present, the emitted
edges are the `Branch` edges followed by the `FallThrough` edge. -/
theorem edgesOfBlock_cond {code : List Nat} {blocks : List BasicBlock}
    {b : BasicBlock} {li : Instruction} {ts : List Nat} {es : List FlowEdge}
    {n : Nat}
    (hlast : b.instructions.getLast? = some li)
    (hbt : branch_targets code li.offset = .ok (some ts))
    (hcond : is_unconditional_branch li.opcode = false)
    (hnext : next_block_start blocks b.end_offset = some n)
    (h : edgesOfBlock code blocks b = .ok es) :
    es = ts.map (fun t =>
        { from_ := b.start_offset, to_ := t, kind := EdgeKind.Branch }) ++
      [{ from_ := b.start_offset, to_ := n, kind := EdgeKind.FallThrough }] := by
  unfold edgesOfBlock at h
  split at h
  · rename_i hnone
    rw [hlast] at hnone
    exact absurd hnone (by simp)
  · rename_i li' hlast'
    rw [hlast] at hlast'
    injection hlast' with hli
    subst hli
    split at h
    · rename_i hbt'
      rw [hbt] at hbt'
      exact absurd hbt' (by simp)
    · rename_i ts' hbt'
      rw [hbt] at hbt'
      injection hbt' with hts
      injection hts with hts
      subst hts
      split at h
      · split at h
        · rename_i next' hnext'
          rw [hnext] at hnext'
          injection hnext' with hn
          subst hn
          injection h with h
          exact h.symm
        · rename_i hnext'
          rw [hnext] at hnext'
          exact absurd hnext' (by simp)
      · rename_i hc
        rw [not_not] at hc
        rw [hcond] at hc
        exact absurd hc (by simp)
    · rename_i hbt'
      rw [hbt] at hbt'
      exact absurd hbt' (by simp)

theorem mkEdges_mem {code : List Nat} {blocks : List BasicBlock} :
    ∀ {bs : List BasicBlock} {es : List FlowEdge},
      mkEdges code blocks bs = .ok es → ∀ e ∈ es,
        ∃ b ∈ bs, ∃ eb, edgesOfBlock code blocks b = .ok eb ∧ e ∈ eb := by
  intro bs
  induction bs with
  | nil =>
    intro es h e he
    injection h with h
    subst h
    cases he
  | cons b rest ih =>
    intro es h e he
    unfold mkEdges at h
    cases hb : edgesOfBlock code blocks b with
    | error err => rw [hb] at h; exact absurd h (by simp)
    | ok here =>
      rw [hb] at h
      cases hrest : mkEdges code blocks rest with
      | error err => rw [hrest] at h; exact absurd h (by simp)
      | ok there =>
        rw [hrest] at h
        injection h with h
        subst h
        rcases List.mem_append.mp he with he' | he'
        · exact ⟨b, List.mem_cons_self b rest, here, hb, he'⟩
        · obtain ⟨b', hb', eb, heb, he''⟩ := ih hrest e he'
          exact ⟨b', List.mem_cons_of_mem b hb', eb, heb, he''⟩

theorem mkEdges_block_ok {code : List Nat} {blocks : List BasicBlock} :
    ∀ {bs : List BasicBlock} {es : List FlowEdge},
      mkEdges code blocks bs = .ok es → ∀ b ∈ bs,
        ∃ eb, edgesOfBlock code blocks b = .ok eb ∧ ∀ e ∈ eb, e ∈ es := by
  intro bs
  induction bs with
  | nil =>
    intro es h b hb
    cases hb
  | cons b0 rest ih =>
    intro es h b hb
    unfold mkEdges at h
    cases hb0 : edgesOfBlock code blocks b0 with
    | error err => rw [hb0] at h; exact absurd h (by simp)
    | ok here =>
      rw [hb0] at h
      cases hrest : mkEdges code blocks rest with
      | error err => rw [hrest] at h; exact absurd h (by simp)
      | ok there =>
        rw [hrest] at h
        injection h with h
        subst h
        rcases List.mem_cons.mp hb with rfl | hb'
        · exact ⟨here, hb0, fun e he => List.mem_append.mpr (Or.inl he)⟩
        · obtain ⟨eb, heb, hsub⟩ := ih hrest b hb'
          exact ⟨eb, heb, fun e he =>
            List.mem_append.mpr (Or.inr (hsub e he))⟩

/-! ### Branch targets become leaders -/

theorem leadersOfInst_targets_sub {code : List Nat} {inst : Instruction}
    {l ts : List Nat} (h : leadersOfInst code inst = .ok l)
    (hbt : branch_targets code inst.offset = .ok (some ts)) :
    ∀ t ∈ ts, t ∈ l := by
  unfold leadersOfInst at h
  split at h
  · rename_i hbt'
    rw [hbt] at hbt'
    exact absurd hbt' (by simp)
  · rename_i hbt'
    rw [hbt] at hbt'
    exact absurd hbt' (by simp)
  · rename_i targets hbt'
    rw [hbt] at hbt'
    injection hbt' with h1
    injection h1 with h1
    subst h1
    split at h
    · exact absurd h (by simp)
    · rename_i len hlen
      split at h
      · injection h with h
        subst h
        intro t ht
        exact List.mem_append.mpr
          (Or.inl (List.mem_append.mpr (Or.inl ht)))
      · injection h with h
        subst h
        intro t ht
        exact List.mem_append.mpr (Or.inl ht)

theorem instructionLeaders_targets {code : List Nat} :
    ∀ {insts : List Instruction} {extra : List Nat},
      instructionLeaders code insts = .ok extra →
      ∀ inst ∈ insts, ∀ ts,
        branch_targets code inst.offset = .ok (some ts) →
        ∀ t ∈ ts, t ∈ extra := by
  intro insts
  induction insts with
  | nil =>
    intro extra h inst hinst
    cases hinst
  | cons i rest ih =>
    intro extra h inst hinst ts hbt t ht
    unfold instructionLeaders at h
    split at h
    · exact absurd h (by simp)
    · rename_i here hhere
      split at h
      · exact absurd h (by simp)
      · rename_i there hthere
        injection h with h
        subst h
        rcases List.mem_cons.mp hinst with rfl | hinst'
        · exact List.mem_append.mpr
            (Or.inl (leadersOfInst_targets_sub hhere hbt t ht))
        · exact List.mem_append.mpr
            (Or.inr (ih hthere inst hinst' ts hbt t ht))

/-! ### Panic-freedom: only the unchecked opcode fetch in
`branch_targets` can panic, and only when an instruction offset is out
of the code buffer. -/

/-- An error propagated with `?` out of a panic-free sub-computation is
not a panic, even when it is re-wrapped at a different result type. -/
theorem err_ne_panic_of {γ δ : Type} {f : Except RtError γ} {e : RtError}
    (hf : f = .error e) (hnp : f ≠ .error .panic) :
    (Except.error e : Except RtError δ) ≠ .error .panic := by
  intro hc
  injection hc with hc
  subst hc
  exact hnp hf

theorem read_u16_ne_panic {code : List Nat} {off : Nat} :
    read_u16 code off ≠ .error .panic := by
  unfold read_u16
  split <;> simp

theorem read_u32_ne_panic {code : List Nat} {off : Nat} :
    read_u32 code off ≠ .error .panic := by
  unfold read_u32
  split <;> simp

theorem read_i16_ne_panic {code : List Nat} {off : Nat} :
    read_i16 code off ≠ .error .panic := by
  unfold read_i16
  split
  · simp
  · rename_i e h'
    exact err_ne_panic_of h' read_u16_ne_panic

theorem read_i32_ne_panic {code : List Nat} {off : Nat} :
    read_i32 code off ≠ .error .panic := by
  unfold read_i32
  split
  · simp
  · rename_i e h'
    exact err_ne_panic_of h' read_u32_ne_panic

theorem switchLoop_ne_panic {code : List Nat} {offset rd st : Nat} :
    ∀ {n idx : Nat}, switchLoop code offset rd st idx n ≠ .error .panic := by
  intro n
  induction n with
  | zero => intro idx; simp [switchLoop]
  | succ n ih =>
    intro idx
    unfold switchLoop
    split
    · rename_i e h'
      exact err_ne_panic_of h' read_i32_ne_panic
    · split
      · rename_i e h'
        exact err_ne_panic_of h' ih
      · simp

theorem tableswitch_targets_ne_panic {code : List Nat} {off : Nat} :
    tableswitch_targets code off ≠ .error .panic := by
  unfold tableswitch_targets
  split
  · rename_i e h'; exact err_ne_panic_of h' read_i32_ne_panic
  · split
    · rename_i e h'; exact err_ne_panic_of h' read_i32_ne_panic
    · split
      · rename_i e h'; exact err_ne_panic_of h' read_i32_ne_panic
      · split
        · simp
        · split
          · rename_i e h'; exact err_ne_panic_of h' switchLoop_ne_panic
          · simp

theorem lookupswitch_targets_ne_panic {code : List Nat} {off : Nat} :
    lookupswitch_targets code off ≠ .error .panic := by
  unfold lookupswitch_targets
  split
  · rename_i e h'; exact err_ne_panic_of h' read_i32_ne_panic
  · split
    · rename_i e h'; exact err_ne_panic_of h' read_i32_ne_panic
    · split
      · rename_i e h'; exact err_ne_panic_of h' switchLoop_ne_panic
      · simp

theorem opcode_length_ne_panic {code : List Nat} {off : Nat} :
    opcode_length code off ≠ .error .panic := by
  unfold opcode_length
  split
  · simp
  · split
    · simp
    · split
      · simp
      · split
        · split
          · simp
          · rename_i e h'
            exact err_ne_panic_of h' read_i32_ne_panic
          · rename_i v heq hnm
            exact err_ne_panic_of heq read_i32_ne_panic
        · split
          · split
            · simp
            · rename_i e h'
              exact err_ne_panic_of h' read_i32_ne_panic
          · simp

theorem branch_targets_ne_panic {code : List Nat} {off : Nat}
    (hoff : off < code.length) :
    branch_targets code off ≠ .error .panic := by
  unfold branch_targets
  split
  · rename_i hget
    rw [List.get?_eq_none] at hget
    omega
  · split
    · split
      · rename_i e h'; exact err_ne_panic_of h' read_i16_ne_panic
      · simp
    · split
      · split
        · rename_i e h'; exact err_ne_panic_of h' read_i32_ne_panic
        · simp
      · split
        · split
          · rename_i e h'
            exact err_ne_panic_of h' tableswitch_targets_ne_panic
          · simp
        · split
          · split
            · rename_i e h'
              exact err_ne_panic_of h' lookupswitch_targets_ne_panic
            · simp
          · simp

theorem leadersOfInst_ne_panic {code : List Nat} {inst : Instruction}
    (hoff : inst.offset < code.length) :
    leadersOfInst code inst ≠ .error .panic := by
  unfold leadersOfInst
  split
  · rename_i e h'
    exact err_ne_panic_of h' (branch_targets_ne_panic hoff)
  · split
    · split
      · rename_i e h'; exact err_ne_panic_of h' opcode_length_ne_panic
      · simp
    · simp
  · split
    · rename_i e h'; exact err_ne_panic_of h' opcode_length_ne_panic
    · split <;> simp

theorem instructionLeaders_ne_panic {code : List Nat} :
    ∀ {insts : List Instruction},
      (∀ i ∈ insts, i.offset < code.length) →
      instructionLeaders code insts ≠ .error .panic := by
  intro insts
  induction insts with
  | nil => intro _; simp [instructionLeaders]
  | cons i rest ih =>
    intro hin
    unfold instructionLeaders
    split
    · rename_i e h'
      exact err_ne_panic_of h'
        (leadersOfInst_ne_panic (hin i (List.mem_cons_self i rest)))
    · split
      · rename_i e h'
        exact err_ne_panic_of h'
          (ih (fun j hj => hin j (List.mem_cons_of_mem i hj)))
      · simp

theorem leaderList_ne_panic {code : List Nat} {insts : List Instruction}
    {handlers : List Nat}
    (hin : ∀ i ∈ insts, i.offset < code.length) :
    leaderList code insts handlers ≠ .error .panic := by
  unfold leaderList
  split
  · rename_i e h'
    exact err_ne_panic_of h' (instructionLeaders_ne_panic hin)
  · simp

theorem edgesOfBlock_ne_panic {code : List Nat} {blocks : List BasicBlock}
    {b : BasicBlock}
    (hin : ∀ i ∈ b.instructions, i.offset < code.length) :
    edgesOfBlock code blocks b ≠ .error .panic := by
  unfold edgesOfBlock
  split
  · simp
  · rename_i li hlast
    have hli : li ∈ b.instructions := by
      obtain ⟨hne, rfl⟩ := List.mem_getLast?_eq_getLast hlast
      exact List.getLast_mem hne
    split
    · rename_i e h'
      exact err_ne_panic_of h' (branch_targets_ne_panic (hin li hli))
    · split
      · split <;> simp
      · simp
    · split
      · split <;> simp
      · simp

theorem mkEdges_ne_panic {code : List Nat} {blocks : List BasicBlock} :
    ∀ {bs : List BasicBlock},
      (∀ b ∈ bs, ∀ i ∈ b.instructions, i.offset < code.length) →
      mkEdges code blocks bs ≠ .error .panic := by
  intro bs
  induction bs with
  | nil => intro _; simp [mkEdges]
  | cons b rest ih =>
    intro hin
    unfold mkEdges
    split
    · rename_i e h'
      exact err_ne_panic_of h'
        (edgesOfBlock_ne_panic (hin b (List.mem_cons_self b rest)))
    · split
      · rename_i e h'
        exact err_ne_panic_of h'
          (ih (fun b' hb' => hin b' (List.mem_cons_of_mem b hb')))
      · simp

/-- In a strictly ascending list of naturals containing `0`, the head
is `0`. -/
theorem sorted_head_zero {L : List Nat} (hs : L.Sorted (· < ·))
    (h0 : 0 ∈ L) : L.head? = some 0 := by
  cases L with
  | nil => cases h0
  | cons a rest =>
    rcases List.mem_cons.mp h0 with rfl | h0'
    · rfl
    · rw [List.sorted_cons] at hs
      have := hs.1 0 h0'
      omega

/-! ### Concrete bytecode fixtures -/

/-- Spec §8.5: `goto +3` at offset 0, `return` at offset 3. -/
def goto_code : List Nat := [0xa7, 0x00, 0x03, 0xb1]

/-- The instruction list decoded from `goto_code`. -/
def goto_insts : List Instruction :=
  [{ offset := 0, opcode := 0xa7, kind := .Other 0xa7 },
   { offset := 3, opcode := 0xb1, kind := .Other 0xb1 }]

/-- The graph `build_cfg` produces for `goto_code`. -/
def goto_graph : ControlFlowGraph :=
  { blocks :=
      [{ start_offset := 0, end_offset := 3,
         instructions := [{ offset := 0, opcode := 0xa7, kind := .Other 0xa7 }] },
       { start_offset := 3, end_offset := 4,
         instructions := [{ offset := 3, opcode := 0xb1, kind := .Other 0xb1 }] }],
    edges := [{ from_ := 0, to_ := 3, kind := EdgeKind.Branch }] }

/-- `goto +5` at offset 0 (target past the 4-byte buffer), `return` at
offset 3. -/
def oob_goto_code : List Nat := [0xa7, 0x00, 0x05, 0xb1]

/-- The graph `build_cfg` produces for `oob_goto_code`: note the
`Branch` edge to offset 5, which is no block's start. -/
def oob_goto_graph : ControlFlowGraph :=
  { blocks :=
      [{ start_offset := 0, end_offset := 3,
         instructions := [{ offset := 0, opcode := 0xa7, kind := .Other 0xa7 }] },
       { start_offset := 3, end_offset := 4,
         instructions := [{ offset := 3, opcode := 0xb1, kind := .Other 0xb1 }] }],
    edges := [{ from_ := 0, to_ := 5, kind := EdgeKind.Branch }] }

/-- A `tableswitch` at offset 0 whose decoded bounds are `low = 1`,
`high = 0` (`high < low`): 3 alignment padding bytes, then
`default = 16`, `low = 1`, `high = 0`, no case slots. -/
def bad_tableswitch_code : List Nat :=
  [0xaa, 0, 0, 0,
   0, 0, 0, 16,
   0, 0, 0, 1,
   0, 0, 0, 0]

/-- The instruction list decoded from `bad_tableswitch_code`. -/
def bad_tableswitch_insts : List Instruction :=
  [{ offset := 0, opcode := 0xaa, kind := .Other 0xaa }]

/-- A single `return`. -/
def ret_code : List Nat := [0xb1]

/-- The instruction list decoded from `ret_code`. -/
def ret_insts : List Instruction :=
  [{ offset := 0, opcode := 0xb1, kind := .Other 0xb1 }]

/-- Spec §8.6: `ifeq +4` at offset 0, two filler (`nop`) bytes, `return`
at offset 5. -/
def cond_code : List Nat := [0x99, 0x00, 0x04, 0x00, 0x00, 0xb1]

/-- The instruction list decoded from `cond_code`. -/
def cond_insts : List Instruction :=
  [{ offset := 0, opcode := 0x99, kind := .Other 0x99 },
   { offset := 3, opcode := 0x00, kind := .Other 0x00 },
   { offset := 4, opcode := 0x00, kind := .Other 0x00 },
   { offset := 5, opcode := 0xb1, kind := .Other 0xb1 }]

/-- `goto +2` at offset 0: the target 2 falls strictly inside the
3-byte `goto`, so block `[2,3)` holds no instruction. -/
def mid_goto_code : List Nat := [0xa7, 0x00, 0x02, 0xb1]

/-- The graph `build_cfg` produces for `mid_goto_code`, with the empty
block `[2,3)`. -/
def mid_goto_graph : ControlFlowGraph :=
  { blocks :=
      [{ start_offset := 0, end_offset := 2,
         instructions := [{ offset := 0, opcode := 0xa7, kind := .Other 0xa7 }] },
       { start_offset := 2, end_offset := 3, instructions := [] },
       { start_offset := 3, end_offset := 4,
         instructions := [{ offset := 3, opcode := 0xb1, kind := .Other 0xb1 }] }],
    edges := [{ from_ := 0, to_ := 2, kind := EdgeKind.Branch }] }

/-- Spec §8.7 shape: a `tableswitch` at offset 0 with `low = 0`,
`high = 1`, `default = +20` and case targets `+24`, `+28`. -/
def tsw_code : List Nat :=
  [0xaa, 0, 0, 0,
   0, 0, 0, 20,
   0, 0, 0, 0,
   0, 0, 0, 1,
   0, 0, 0, 24,
   0, 0, 0, 28]

/-- A `lookupswitch` at offset 0 with one pair: `default = +16`, pair
`(match = 5, target = +12)`. -/
def lsw_code : List Nat :=
  [0xab, 0, 0, 0,
   0, 0, 0, 16,
   0, 0, 0, 1,
   0, 0, 0, 5,
   0, 0, 0, 12]

/-! ### Claim theorems -/

/-- C1: for every non-empty bytecode buffer, any instruction list and
any handler list for which `build_cfg` succeeds, the resulting blocks
are sorted strictly ascending by `start_offset` and partition
`[0, code_length)` exactly: the block list is non-empty, the first
block starts at 0, each block's `end_offset` equals the next block's
`start_offset`, and the last block's `end_offset` equals the code
length — no gaps, no overlaps. -/
theorem c1_cfg_blocks_partition (code : List Nat)
    (insts : List Instruction) (handlers : List Nat)
    (g : ControlFlowGraph) (hne : code ≠ [])
    (hok : build_cfg code insts handlers = .ok g) :
    g.blocks ≠ [] ∧
    g.blocks.Pairwise (fun a b => a.start_offset < b.start_offset) ∧
    (∀ b, g.blocks.head? = some b → b.start_offset = 0) ∧
    List.Chain' (fun a b => a.end_offset = b.start_offset) g.blocks ∧
    (∀ b, g.blocks.getLast? = some b → b.end_offset = code.length) := by
  obtain ⟨L, hL, hblocks, -⟩ := build_cfg_ok_inv hok
  obtain ⟨extra, hIL, -⟩ := leaderList_ok_inv hL
  have hsorted : L.Sorted (· < ·) := leaderList_sorted hL
  have h0 : 0 ∈ L := by
    rw [mem_leaderList hL hIL]
    exact ⟨Or.inl rfl, List.length_pos.mpr hne⟩
  have hLne : L ≠ [] := by
    intro hnil
    rw [hnil] at h0
    cases h0
  rw [hblocks]
  refine ⟨mkBlocks_ne_nil _ _ hLne, mkBlocks_pairwise_start hsorted, ?_,
    mkBlocks_chain _ _ L, fun b hb => mkBlocks_getLast_end _ _ L b hb⟩
  intro b hb
  have hhead := mkBlocks_head_start code.length insts hb
  rw [sorted_head_zero hsorted h0] at hhead
  injection hhead with hhead
  exact hhead.symm

/-- C1 witness: the partition invariant instantiated on the concrete
`goto` scenario. -/
theorem c1_cfg_blocks_partition_witness :
    goto_code ≠ [] ∧
    (goto_graph.blocks ≠ [] ∧
     goto_graph.blocks.Pairwise (fun a b => a.start_offset < b.start_offset) ∧
     (∀ b, goto_graph.blocks.head? = some b → b.start_offset = 0) ∧
     List.Chain' (fun a b => a.end_offset = b.start_offset) goto_graph.blocks ∧
     (∀ b, goto_graph.blocks.getLast? = some b →
        b.end_offset = goto_code.length)) :=
  ⟨by decide,
   c1_cfg_blocks_partition goto_code goto_insts [] goto_graph
     (by decide) (by decide)⟩

/-- C3 (code behavior at the claimed failing input): for a
`tableswitch` whose decoded bounds satisfy `high < low` (here
`low = 1`, `high = 0`), the decoder does **not** signal a decode
error — `tableswitch_targets` returns the default-only target list and
`build_cfg` succeeds — contradicting the claim that `high < low` is a
decode error.  (`checked_sub`/`checked_add` only catch `i32` overflow;
a plain `high < low` yields `count ≤ 0` and an empty case loop.) -/
theorem c3_tableswitch_high_lt_low_not_error :
    read_i32 bad_tableswitch_code 8 = .ok 1 ∧
    read_i32 bad_tableswitch_code 12 = .ok 0 ∧
    tableswitch_targets bad_tableswitch_code 0 = .ok [16] ∧
    build_cfg bad_tableswitch_code bad_tableswitch_insts [] =
      .ok { blocks :=
              [{ start_offset := 0, end_offset := 16,
                 instructions :=
                   [{ offset := 0, opcode := 0xaa, kind := .Other 0xaa }] }],
            edges := [{ from_ := 0, to_ := 16, kind := EdgeKind.Branch }] } := by
  refine ⟨by decide, by decide, by decide, by decide⟩

/-- C7: on the bytecode `[0xA7, 0x00, 0x03, 0xB1]` (`goto +3`, then
`return` at offset 3) the builder computes the leader list `[0, 3]`,
exactly the two blocks `[0,3)` and `[3,4)`, and exactly one edge,
`Branch {from := 0, to := 3}`; in particular no `FallThrough` edge
leaves the block starting at 0. -/
theorem c7_goto_scenario :
    leaderList goto_code goto_insts [] = .ok [0, 3] ∧
    build_cfg goto_code goto_insts [] = .ok goto_graph ∧
    (∀ e ∈ goto_graph.edges, e.kind ≠ EdgeKind.FallThrough) := by
  refine ⟨by decide, by decide, by decide⟩

/-- C2 counterexample: on `goto +5` in a 4-byte method, `build_cfg`
succeeds and emits the edge `Branch {from := 0, to := 5}` although no
block of the graph starts at offset 5 — the out-of-range target was
dropped from the leader set but **not** from the edge list, refuting
the claim as stated. -/
theorem c2_counterexample :
    build_cfg oob_goto_code goto_insts [] = .ok oob_goto_graph ∧
    ({ from_ := 0, to_ := 5, kind := EdgeKind.Branch } : FlowEdge)
      ∈ oob_goto_graph.edges ∧
    (∀ b ∈ oob_goto_graph.blocks, b.start_offset ≠ 5) := by
  refine ⟨by decide, by decide, by decide⟩

/-- C2 (amended): every edge's `from` equals some block's
`start_offset`; every `FallThrough` edge's `to` equals some block's
`start_offset`; and a `Branch` edge's `to` equals some block's
`start_offset` whenever it lies below the code length — but an
out-of-range branch target is dropped only from the leader set, while
the `Branch` edge to it is still emitted. -/
theorem c2_edge_endpoints (code : List Nat) (insts : List Instruction)
    (handlers : List Nat) (g : ControlFlowGraph)
    (hok : build_cfg code insts handlers = .ok g) :
    (∀ e ∈ g.edges, ∃ b ∈ g.blocks, b.start_offset = e.from_) ∧
    (∀ e ∈ g.edges, e.kind = EdgeKind.FallThrough →
       ∃ b ∈ g.blocks, b.start_offset = e.to_) ∧
    (∀ e ∈ g.edges, e.to_ < code.length →
       ∃ b ∈ g.blocks, b.start_offset = e.to_) := by
  obtain ⟨L, hL, hblocks, hE⟩ := build_cfg_ok_inv hok
  obtain ⟨extra, hIL, -⟩ := leaderList_ok_inv hL
  refine ⟨?_, ?_, ?_⟩
  · intro e he
    obtain ⟨b, hb, eb, heb, hein⟩ := mkEdges_mem hE e he
    exact ⟨b, hb, ((edgesOfBlock_spec heb e hein).1).symm⟩
  · intro e he hkind
    obtain ⟨b, hb, eb, heb, hein⟩ := mkEdges_mem hE e he
    rcases (edgesOfBlock_spec heb e hein).2 with ⟨hbr, -⟩ | ⟨-, hto, b', hb', hbs⟩
    · rw [hkind] at hbr
      cases hbr
    · exact ⟨b', hb', by rw [hbs, hto]⟩
  · intro e he hlt
    obtain ⟨b, hb, eb, heb, hein⟩ := mkEdges_mem hE e he
    rcases (edgesOfBlock_spec heb e hein).2 with
      ⟨-, li, ts, hlast, hbt, hts⟩ | ⟨-, hto, b', hb', hbs⟩
    · have hli : li ∈ b.instructions := by
        obtain ⟨hne', rfl⟩ := List.mem_getLast?_eq_getLast hlast
        exact List.getLast_mem hne'
      have hliInsts : li ∈ insts := by
        rw [hblocks] at hb
        exact mkBlocks_instructions_sub _ _ L b hb li hli
      have hextra : e.to_ ∈ extra :=
        instructionLeaders_targets hIL li hliInsts ts hbt e.to_ hts
      have hmemL : e.to_ ∈ L := by
        rw [mem_leaderList hL hIL]
        exact ⟨Or.inr (Or.inr hextra), hlt⟩
      rw [hblocks]
      exact exists_block_start hmemL
    · exact ⟨b', hb', by rw [hbs, hto]⟩

/-- C2 witness: the amended endpoint property instantiated on the
concrete `goto` scenario. -/
theorem c2_edge_endpoints_witness :
    (∀ e ∈ goto_graph.edges, ∃ b ∈ goto_graph.blocks,
       b.start_offset = e.from_) ∧
    (∀ e ∈ goto_graph.edges, e.kind = EdgeKind.FallThrough →
       ∃ b ∈ goto_graph.blocks, b.start_offset = e.to_) ∧
    (∀ e ∈ goto_graph.edges, e.to_ < goto_code.length →
       ∃ b ∈ goto_graph.blocks, b.start_offset = e.to_) :=
  c2_edge_endpoints goto_code goto_insts [] goto_graph (by decide)

/-- The graph `build_cfg` produces for `ret_code` with handler pc 0. -/
def ret_graph : ControlFlowGraph :=
  { blocks := [{ start_offset := 0, end_offset := 1,
                 instructions := ret_insts }],
    edges := [] }

/-- C4 counterexample: with a handler `(start_pc 0, end_pc 1,
handler_pc 0)` — supplied to the builder as the handler pc 0 — the
block `[0,1)` lies wholly inside the protected range, yet the graph
holds no `Exception` edge at all, refuting the claim as stated. -/
theorem c4_counterexample :
    build_cfg ret_code ret_insts [0] = .ok ret_graph ∧
    (∃ b ∈ ret_graph.blocks, b.start_offset = 0 ∧ b.end_offset = 1) ∧
    ¬ ∃ e ∈ ret_graph.edges, e.kind = EdgeKind.Exception := by
  refine ⟨by decide, by decide, by decide⟩

/-- C4 (amended): the builder receives only the handler pcs, records
each in-range handler pc as a block leader (so a block starts there),
and never emits an `Exception`-kind edge. -/
theorem c4_handler_leaders_no_exception_edges (code : List Nat)
    (insts : List Instruction) (handlers : List Nat)
    (g : ControlFlowGraph)
    (hok : build_cfg code insts handlers = .ok g) :
    (∀ e ∈ g.edges, e.kind ≠ EdgeKind.Exception) ∧
    (∀ hp ∈ handlers, hp < code.length →
       ∃ b ∈ g.blocks, b.start_offset = hp) := by
  obtain ⟨L, hL, hblocks, hE⟩ := build_cfg_ok_inv hok
  obtain ⟨extra, hIL, -⟩ := leaderList_ok_inv hL
  refine ⟨?_, ?_⟩
  · intro e he
    obtain ⟨b, hb, eb, heb, hein⟩ := mkEdges_mem hE e he
    rcases (edgesOfBlock_spec heb e hein).2 with ⟨hbr, -⟩ | ⟨hft, -⟩
    · rw [hbr]
      simp
    · rw [hft]
      simp
  · intro hp hhp hlt
    have hmemL : hp ∈ L := by
      rw [mem_leaderList hL hIL]
      exact ⟨Or.inr (Or.inl hhp), hlt⟩
    rw [hblocks]
    exact exists_block_start hmemL

/-- C4 witness: the amended handler property instantiated on the
`return`-with-handler scenario. -/
theorem c4_handler_leaders_witness :
    (∀ e ∈ ret_graph.edges, e.kind ≠ EdgeKind.Exception) ∧
    (∀ hp ∈ ([0] : List Nat), hp < ret_code.length →
       ∃ b ∈ ret_graph.blocks, b.start_offset = hp) :=
  c4_handler_leaders_no_exception_edges ret_code ret_insts [0] ret_graph
    (by decide)

/-- C9: a block whose instruction list is empty (a leader falling
strictly inside a multi-byte instruction) emits no outgoing edges: no
edge of the graph leaves its `start_offset`. -/
theorem c9_empty_block_no_outgoing_edges (code : List Nat)
    (insts : List Instruction) (handlers : List Nat)
    (g : ControlFlowGraph) (b : BasicBlock)
    (hok : build_cfg code insts handlers = .ok g)
    (hb : b ∈ g.blocks) (hempty : b.instructions = []) :
    ∀ e ∈ g.edges, e.from_ ≠ b.start_offset := by
  obtain ⟨L, hL, hblocks, hE⟩ := build_cfg_ok_inv hok
  have hsorted := leaderList_sorted hL
  have hpw : g.blocks.Pairwise
      (fun a b => a.start_offset < b.start_offset) := by
    rw [hblocks]
    exact mkBlocks_pairwise_start hsorted
  intro e he heq
  obtain ⟨b', hb', eb, heb, hein⟩ := mkEdges_mem hE e he
  have hfrom := (edgesOfBlock_spec heb e hein).1
  have hbb : b' = b :=
    pairwise_start_inj hpw hb' hb (hfrom.symm.trans heq)
  subst hbb
  have h0 : edgesOfBlock code g.blocks _ = .ok [] :=
    edgesOfBlock_empty hempty
  rw [heb] at h0
  injection h0 with h0
  subst h0
  cases hein

/-- The graph `build_cfg` produces for `cond_code` (spec §8.6). -/
def cond_graph : ControlFlowGraph :=
  { blocks :=
      [{ start_offset := 0, end_offset := 3,
         instructions := [{ offset := 0, opcode := 0x99, kind := .Other 0x99 }] },
       { start_offset := 3, end_offset := 4,
         instructions := [{ offset := 3, opcode := 0x00, kind := .Other 0x00 }] },
       { start_offset := 4, end_offset := 6,
         instructions := [{ offset := 4, opcode := 0x00, kind := .Other 0x00 },
                          { offset := 5, opcode := 0xb1, kind := .Other 0xb1 }] }],
    edges := [{ from_ := 0, to_ := 4, kind := EdgeKind.Branch },
              { from_ := 0, to_ := 3, kind := EdgeKind.FallThrough },
              { from_ := 3, to_ := 4, kind := EdgeKind.FallThrough }] }

/-- A successful edge pass implies the terminal instruction's target
resolution succeeded. -/
theorem edgesOfBlock_branch_targets_ok {code : List Nat}
    {blocks : List BasicBlock} {b : BasicBlock} {eb : List FlowEdge}
    {li : Instruction} (h : edgesOfBlock code blocks b = .ok eb)
    (hlast : b.instructions.getLast? = some li) :
    ∃ r, branch_targets code li.offset = .ok r := by
  unfold edgesOfBlock at h
  split at h
  · rename_i hnone
    rw [hlast] at hnone
    exact absurd hnone (by simp)
  · rename_i li' hlast'
    rw [hlast] at hlast'
    injection hlast' with hli
    subst hli
    split at h
    · exact absurd h (by simp)
    · rename_i ts hbt
      exact ⟨some ts, hbt⟩
    · rename_i hbt
      exact ⟨none, hbt⟩

/-- For an unconditional-branch opcode actually present in the buffer,
a successful `branch_targets` always yields explicit targets. -/
theorem branch_targets_uncond_some {code : List Nat} {off op : Nat}
    {r : Option (List Nat)} (hget : code.get? off = some op)
    (huncond : is_unconditional_branch op = true)
    (hok : branch_targets code off = .ok r) : ∃ ts, r = some ts := by
  have hcases : op = 0xa7 ∨ op = 0xa8 ∨ op = 0xc8 ∨ op = 0xc9 := by
    unfold is_unconditional_branch GOTO JSR GOTO_W JSR_W at huncond
    simp at huncond
    tauto
  unfold branch_targets at hok
  split at hok
  · rename_i hg
    rw [hget] at hg
    exact absurd hg (by simp)
  · rename_i op' hg
    rw [hget] at hg
    injection hg with hop
    subst hop
    simp only [GOTO, JSR, GOTO_W, JSR_W] at hok
    split_ifs at hok with h1 h2 h3 h4
    · split at hok
      · exact absurd hok (by simp)
      · injection hok with hok
        exact ⟨_, hok.symm⟩
    · split at hok
      · exact absurd hok (by simp)
      · injection hok with hok
        exact ⟨_, hok.symm⟩
    · omega
    · omega
    · omega

/-- C5: (a) for a block whose last instruction is one of `goto`,
`goto_w`, `jsr`, `jsr_w` (as decoded from the buffer), every edge
leaving the block is a `Branch` edge — no `FallThrough`; (b) for a
block whose last instruction has explicit targets but is not one of
those four opcodes, when a block starts at this block's `end_offset`
the `FallThrough` edge to it is additionally emitted. -/
theorem c5_unconditional_branch_edges (code : List Nat)
    (insts : List Instruction) (handlers : List Nat)
    (g : ControlFlowGraph)
    (hok : build_cfg code insts handlers = .ok g) :
    (∀ b ∈ g.blocks, ∀ li, b.instructions.getLast? = some li →
       code.get? li.offset = some li.opcode →
       is_unconditional_branch li.opcode = true →
       ∀ e ∈ g.edges, e.from_ = b.start_offset →
         e.kind = EdgeKind.Branch) ∧
    (∀ b ∈ g.blocks, ∀ li ts, b.instructions.getLast? = some li →
       branch_targets code li.offset = .ok (some ts) →
       is_unconditional_branch li.opcode = false →
       ∀ b' ∈ g.blocks, b'.start_offset = b.end_offset →
       ({ from_ := b.start_offset, to_ := b.end_offset,
          kind := EdgeKind.FallThrough } : FlowEdge) ∈ g.edges) := by
  obtain ⟨L, hL, hblocks, hE⟩ := build_cfg_ok_inv hok
  have hsorted := leaderList_sorted hL
  have hpw : g.blocks.Pairwise
      (fun a b => a.start_offset < b.start_offset) := by
    rw [hblocks]
    exact mkBlocks_pairwise_start hsorted
  refine ⟨?_, ?_⟩
  · intro b hb li hlast hcode huncond e he hfrom
    obtain ⟨b'', hb'', eb, heb, hein⟩ := mkEdges_mem hE e he
    have hfrom'' := (edgesOfBlock_spec heb e hein).1
    have hbb : b'' = b :=
      pairwise_start_inj hpw hb'' hb (hfrom''.symm.trans hfrom)
    subst hbb
    obtain ⟨r, hbtr⟩ := edgesOfBlock_branch_targets_ok heb hlast
    obtain ⟨ts, rfl⟩ := branch_targets_uncond_some hcode huncond hbtr
    have heq := edgesOfBlock_uncond hlast hbtr huncond heb
    rw [heq] at hein
    obtain ⟨t, -, rfl⟩ := List.mem_map.mp hein
    rfl
  · intro b hb li ts hlast hbt hcond b' hb' hbs
    obtain ⟨eb, heb, hsub⟩ := mkEdges_block_ok hE b hb
    have hnext : next_block_start g.blocks b.end_offset
        = some b.end_offset := next_block_start_of_mem hb' hbs
    have heq := edgesOfBlock_cond hlast hbt hcond hnext heb
    apply hsub
    rw [heq]
    exact List.mem_append.mpr (Or.inr (List.mem_singleton.mpr rfl))

/-- C5 witness: part (a) on the `goto` scenario (block 0 ends in
`goto`, edges from offset 0 are `Branch` only) and part (b) on the
`ifeq` scenario (block 0 ends in a conditional branch and the
`FallThrough {from := 0, to := 3}` edge is present). -/
theorem c5_unconditional_branch_edges_witness :
    (∀ e ∈ goto_graph.edges,
       e.from_ =
         (⟨0, 3, [⟨0, 0xa7, .Other 0xa7⟩]⟩ : BasicBlock).start_offset →
       e.kind = EdgeKind.Branch) ∧
    (⟨(⟨0, 3, [⟨0, 0x99, .Other 0x99⟩]⟩ : BasicBlock).start_offset,
      (⟨0, 3, [⟨0, 0x99, .Other 0x99⟩]⟩ : BasicBlock).end_offset,
      EdgeKind.FallThrough⟩ : FlowEdge) ∈ cond_graph.edges :=
  ⟨(c5_unconditional_branch_edges goto_code goto_insts [] goto_graph
      (by decide)).1
      ⟨0, 3, [⟨0, 0xa7, .Other 0xa7⟩]⟩ (by decide)
      ⟨0, 0xa7, .Other 0xa7⟩ (by decide) (by decide) (by decide),
   (c5_unconditional_branch_edges cond_code cond_insts [] cond_graph
      (by decide)).2
      ⟨0, 3, [⟨0, 0x99, .Other 0x99⟩]⟩ (by decide)
      ⟨0, 0x99, .Other 0x99⟩ [4] (by decide) (by decide) (by decide)
      ⟨3, 4, [⟨3, 0x00, .Other 0x00⟩]⟩ (by decide) (by decide)⟩

/-- C9 witness: on `goto +2` the block `[2,3)` is empty, and the
graph's one edge (`Branch {from := 0, to := 2}`) does not leave
offset 2. -/
theorem c9_empty_block_witness :
    (⟨0, 2, EdgeKind.Branch⟩ : FlowEdge) ∈ mid_goto_graph.edges ∧
    (⟨0, 2, EdgeKind.Branch⟩ : FlowEdge).from_
      ≠ ((⟨2, 3, []⟩ : BasicBlock)).start_offset :=
  ⟨by decide,
   c9_empty_block_no_outgoing_edges mid_goto_code goto_insts []
     mid_goto_graph ⟨2, 3, []⟩ (by decide) (by decide) (by decide)
     ⟨0, 2, EdgeKind.Branch⟩ (by decide)⟩

/-- Characterization of the per-case read loop: it returns one resolved
target per iteration, in read order. -/
theorem switchLoop_ok {code : List Nat} {offset rd st : Nat} :
    ∀ {n idx : Nat} {cases : List Nat},
      switchLoop code offset rd st idx n = .ok cases →
      cases.length = n ∧
      (∀ i t, i < n → read_i32 code (idx + st * i + rd) = .ok t →
         cases.get? i = some (resolveTarget offset t)) := by
  intro n
  induction n with
  | zero =>
    intro idx cases h
    injection h with h
    subst h
    exact ⟨rfl, by omega⟩
  | succ n ih =>
    intro idx cases h
    unfold switchLoop at h
    split at h
    · exact absurd h (by simp)
    · rename_i t0 hr0
      split at h
      · exact absurd h (by simp)
      · rename_i rest hrest
        injection h with h
        subst h
        obtain ⟨hlen, hidx⟩ := ih hrest
        refine ⟨by simp [hlen], ?_⟩
        intro i t hi hread
        cases i with
        | zero =>
          rw [Nat.mul_zero, Nat.add_zero] at hread
          rw [hr0] at hread
          injection hread with ht
          rw [ht]
          rfl
        | succ i =>
          have harith : idx + st * (i + 1) + rd = idx + st + st * i + rd := by
            ring
          rw [harith] at hread
          have := hidx i t (by omega) hread
          simpa using this

/-- The `checked_sub`/`checked_add` chain of `tableswitch_targets`
yields `high - low + 1` whenever it yields anything. -/
theorem checkedCount_eq {low high count : Int}
    (h : (i32CheckedSub high low).bind (fun v => i32CheckedAdd v 1)
      = some count) : count = high - low + 1 := by
  unfold i32CheckedSub at h
  by_cases h1 : -2147483648 ≤ high - low ∧ high - low < 2147483648
  · rw [if_pos h1] at h
    simp only [Option.some_bind] at h
    unfold i32CheckedAdd at h
    by_cases h2 : -2147483648 ≤ high - low + 1 ∧ high - low + 1 < 2147483648
    · rw [if_pos h2] at h
      injection h with h
      exact h.symm
    · rw [if_neg h2] at h
      exact absurd h (by simp)
  · rw [if_neg h1] at h
    exact absurd h (by simp)

/-- C6: a successfully decoded `tableswitch` resolves to the default
target first, followed by one target per case in ascending case-index
order (`high - low + 1` of them, the i-th read at
`base + 12 + 4·i`); a successfully decoded `lookupswitch` resolves to
the default target first, followed by one target per pair in pair
declaration order (the i-th read at `base + 8 + 8·i + 4`), not sorted
by match value. -/
theorem c6_switch_target_order :
    (∀ (code : List Nat) (offset : Nat) (l : List Nat)
       (dflt low high : Int),
       read_i32 code (offset + 1 + padding offset) = .ok dflt →
       read_i32 code (offset + 1 + padding offset + 4) = .ok low →
       read_i32 code (offset + 1 + padding offset + 8) = .ok high →
       low ≤ high →
       tableswitch_targets code offset = .ok l →
       l.head? = some (resolveTarget offset dflt) ∧
       l.length = 1 + (high - low + 1).toNat ∧
       (∀ i t, i < (high - low + 1).toNat →
          read_i32 code (offset + 1 + padding offset + 12 + 4 * i)
            = .ok t →
          l.get? (i + 1) = some (resolveTarget offset t))) ∧
    (∀ (code : List Nat) (offset : Nat) (l : List Nat)
       (dflt npairs : Int),
       read_i32 code (offset + 1 + padding offset) = .ok dflt →
       read_i32 code (offset + 1 + padding offset + 4) = .ok npairs →
       lookupswitch_targets code offset = .ok l →
       l.head? = some (resolveTarget offset dflt) ∧
       l.length = 1 + npairs.toNat ∧
       (∀ i t, i < npairs.toNat →
          read_i32 code (offset + 1 + padding offset + 8 + 8 * i + 4)
            = .ok t →
          l.get? (i + 1) = some (resolveTarget offset t))) := by
  refine ⟨?_, ?_⟩
  · intro code offset l dflt low high hd hl hh hle hts
    unfold tableswitch_targets at hts
    split at hts
    · rename_i e h'
      rw [hd] at h'
      exact absurd h' (by simp)
    · rename_i dflt' hd'
      rw [hd] at hd'
      injection hd' with h1
      subst h1
      split at hts
      · rename_i e h'
        rw [hl] at h'
        exact absurd h' (by simp)
      · rename_i low' hl'
        rw [hl] at hl'
        injection hl' with h1
        subst h1
        split at hts
        · rename_i e h'
          rw [hh] at h'
          exact absurd h' (by simp)
        · rename_i high' hh'
          rw [hh] at hh'
          injection hh' with h1
          subst h1
          split at hts
          · exact absurd hts (by simp)
          · rename_i count hcount
            have hc : count = high - low + 1 := checkedCount_eq hcount
            split at hts
            · exact absurd hts (by simp)
            · rename_i cases hloop
              injection hts with hts
              subst hts
              obtain ⟨hlen, hget⟩ := switchLoop_ok hloop
              have hlen' : cases.length = (high - low + 1).toNat := by
                rw [hlen]
                unfold loopIters
                rw [hc]
              refine ⟨rfl, by simp only [List.length_cons, hlen']; omega, ?_⟩
              intro i t hi hread
              have hiters : i < loopIters count := by
                unfold loopIters
                rw [hc]
                exact hi
              have := hget i t hiters (by simpa using hread)
              simpa using this
  · intro code offset l dflt npairs hd hn hls
    unfold lookupswitch_targets at hls
    split at hls
    · rename_i e h'
      rw [hd] at h'
      exact absurd h' (by simp)
    · rename_i dflt' hd'
      rw [hd] at hd'
      injection hd' with h1
      subst h1
      split at hls
      · rename_i e h'
        rw [hn] at h'
        exact absurd h' (by simp)
      · rename_i npairs' hn'
        rw [hn] at hn'
        injection hn' with h1
        subst h1
        split at hls
        · exact absurd hls (by simp)
        · rename_i pairs hloop
          injection hls with hls
          subst hls
          obtain ⟨hlen, hget⟩ := switchLoop_ok hloop
          refine ⟨rfl, by simp only [List.length_cons, hlen, loopIters]; omega, ?_⟩
          intro i t hi hread
          have hiters : i < loopIters npairs := hi
          have := hget i t hiters (by simpa using hread)
          simpa using this

/-- C6 witness: the switch ordering instantiated on a concrete
`tableswitch` (`low = 0`, `high = 1`, default `+20`, cases `+24`,
`+28`) and a concrete `lookupswitch` (one pair, default `+16`, pair
target `+12`). -/
theorem c6_switch_target_order_witness :
    (([20, 24, 28] : List Nat).head? = some (resolveTarget 0 20) ∧
     ([20, 24, 28] : List Nat).length = 1 + ((1 : Int) - 0 + 1).toNat ∧
     (∀ i t, i < ((1 : Int) - 0 + 1).toNat →
        read_i32 tsw_code (0 + 1 + padding 0 + 12 + 4 * i) = .ok t →
        ([20, 24, 28] : List Nat).get? (i + 1)
          = some (resolveTarget 0 t))) ∧
    (([16, 12] : List Nat).head? = some (resolveTarget 0 16) ∧
     ([16, 12] : List Nat).length = 1 + ((1 : Int)).toNat ∧
     (∀ i t, i < ((1 : Int)).toNat →
        read_i32 lsw_code (0 + 1 + padding 0 + 8 + 8 * i + 4) = .ok t →
        ([16, 12] : List Nat).get? (i + 1)
          = some (resolveTarget 0 t))) :=
  ⟨c6_switch_target_order.1 tsw_code 0 [20, 24, 28] 20 0 1
     (by decide) (by decide) (by decide) (by decide) (by decide),
   c6_switch_target_order.2 lsw_code 0 [16, 12] 16 1
     (by decide) (by decide) (by decide)⟩

/-- C8: the builder is a pure function of its input, and its output
does not depend on the order in which leader offsets are inserted:
permuting the handler list — the only caller-controlled insertion
order — leaves the block and edge sequences identical, because the
leader set is kept in an inherently ordered structure. -/
theorem c8_deterministic_output (code : List Nat)
    (insts : List Instruction) (handlers handlers' : List Nat)
    (hperm : handlers.Perm handlers') :
    build_cfg code insts handlers = build_cfg code insts handlers' := by
  suffices h : leaderList code insts handlers
      = leaderList code insts handlers' by
    unfold build_cfg
    rw [h]
  unfold leaderList
  cases hIL : instructionLeaders code insts with
  | error e => rfl
  | ok extra =>
    have hcore : leaderCore handlers extra = leaderCore handlers' extra := by
      haveI : IsAntisymm Nat (· < ·) :=
        ⟨fun a b h1 h2 => absurd h1 (by omega)⟩
      have hmem : ∀ a, a ∈ leaderCore handlers extra
          ↔ a ∈ leaderCore handlers' extra := by
        intro a
        rw [mem_leaderCore, mem_leaderCore, hperm.mem_iff]
      have hs1 : (leaderCore handlers extra).Sorted (· < ·) :=
        sorted_leaderCore
      have hs2 : (leaderCore handlers' extra).Sorted (· < ·) :=
        sorted_leaderCore
      have hnd1 : (leaderCore handlers extra).Nodup := hs1.nodup
      have hnd2 : (leaderCore handlers' extra).Nodup := hs2.nodup
      exact List.eq_of_perm_of_sorted
        ((List.perm_ext_iff_of_nodup hnd1 hnd2).mpr hmem) hs1 hs2
    unfold leaderCore at hcore
    show Except.ok _ = Except.ok _
    rw [hcore]

/-- C8 witness: two invocations with the handler pcs supplied in
opposite orders produce the same graph. -/
theorem c8_deterministic_output_witness :
    build_cfg goto_code goto_insts [3, 0]
      = build_cfg goto_code goto_insts [0, 3] :=
  c8_deterministic_output goto_code goto_insts [3, 0] [0, 3]
    (List.Perm.swap 0 3 [])

/-- C10: when every instruction offset lies inside the code buffer, the
unchecked opcode fetch `code[offset]` in `branch_targets` is in bounds
and `build_cfg` never panics; and `build_cfg` itself performs no bounds
check before that fetch — an instruction offset past the buffer end
reaches the fetch and panics (here offset 5 in a 1-byte method). -/
theorem c10_no_panic_in_bounds (code : List Nat)
    (insts : List Instruction) (handlers : List Nat)
    (hin : ∀ i ∈ insts, i.offset < code.length) :
    build_cfg code insts handlers ≠ .error RtError.panic ∧
    build_cfg ret_code [⟨5, 0xb1, .Other 0xb1⟩] []
      = .error RtError.panic := by
  refine ⟨?_, by decide⟩
  unfold build_cfg
  split
  · rename_i e h'
    exact err_ne_panic_of h' (leaderList_ne_panic hin)
  · rename_i L hL
    split
    · rename_i e h'
      exact err_ne_panic_of h'
        (mkEdges_ne_panic (fun b hb i hi =>
          hin i (mkBlocks_instructions_sub _ _ L b hb i hi)))
    · simp

/-- C10 witness: the panic-freedom conjunction instantiated on the
in-bounds `return` method. -/
theorem c10_no_panic_in_bounds_witness :
    build_cfg ret_code ret_insts [] ≠ .error RtError.panic ∧
    build_cfg ret_code [⟨5, 0xb1, .Other 0xb1⟩] []
      = .error RtError.panic :=
  c10_no_panic_in_bounds ret_code ret_insts [] (by decide)

end Rtro
